import Mathlib

/-!
Verification development for the qbit client package (`qbit.go`).

Go strings are modeled as `List Char`, Go `url.Values` as association
lists, the HTTP environment (network plus URL parsing) as an oracle
`Env`, and `context.Context` as an optional deadline.  The functions
`newConfig`, `Qbit.login` and `Qbit.req` below are direct translations
of the Go functions of the same names; observable actions (requests
sent, login invocations) are recorded in an event trace.
-/

/-- Go strings, modeled as lists of characters. -/
abbrev GoString := List Char

/-- Coerce a Lean string literal to a modeled Go string. -/
def toGo (s : String) : GoString := s.toList

/-- Model of `strings.Contains`: `sub` occurs as a contiguous substring of `s`. -/
def strContains : GoString → GoString → Bool
  | [], sub => sub.isEmpty
  | c :: t, sub => sub.isPrefixOf (c :: t) || strContains t sub

/-- Model of `strings.TrimSuffix`: drop `suf` from the end of `s` when present. -/
def trimSuffix (s suf : GoString) : GoString :=
  if suf.isSuffixOf s then s.take (s.length - suf.length) else s

/-- The URL rewrite performed by `newConfig`:
`config.URL = strings.TrimSuffix(config.URL, "/") + "/"`. -/
def normalizeURL (u : GoString) : GoString :=
  trimSuffix u (toGo "/") ++ toGo "/"

/-- Model of `strings.Join(parts, sep)`. -/
def goJoin : List GoString → GoString → GoString
  | [], _ => []
  | [x], _ => x
  | x :: y :: xs, sep => x ++ sep ++ goJoin (y :: xs) sep

/-- UTF-8 encoding of one character, as byte values (Go `[]byte` of a string). -/
def utf8Char (c : Char) : List Nat :=
  let n := c.toNat
  if n < 128 then [n]
  else if n < 2048 then [192 + n / 64, 128 + n % 64]
  else if n < 65536 then [224 + n / 4096, 128 + n / 64 % 64, 128 + n % 64]
  else [240 + n / 262144, 128 + n / 4096 % 64, 128 + n / 64 % 64, 128 + n % 64]

/-- UTF-8 bytes of a Go string (model of the `[]byte(s)` conversion). -/
def utf8Bytes (s : GoString) : List Nat := (s.map utf8Char).flatten

/-- Character of the standard base64 alphabet at index `n`. -/
def b64Char (n : Nat) : Char :=
  (toGo "ABCDEFGHIJKLMNOPQRSTUVWXYZabcdefghijklmnopqrstuvwxyz0123456789+/").getD n 'A'

/-- Model of `base64.StdEncoding.EncodeToString` over byte values. -/
def base64Chars : List Nat → List Char
  | [] => []
  | [a] => [b64Char (a / 4), b64Char (a % 4 * 16), '=', '=']
  | [a, b] => [b64Char (a / 4), b64Char (a % 4 * 16 + b / 16), b64Char (b % 16 * 4), '=']
  | a :: b :: c :: rest =>
      b64Char (a / 4) :: b64Char (a % 4 * 16 + b / 16) :: b64Char (b % 16 * 4 + c / 64) ::
        b64Char (c % 64) :: base64Chars rest

/-- Upper-case hexadecimal digit for `n < 16`. -/
def hexUpper (n : Nat) : Char := (toGo "0123456789ABCDEF").getD n '0'

/-- Percent-escape of a single byte. -/
def escByte (b : Nat) : List Char := ['%', hexUpper (b / 16), hexUpper (b % 16)]

/-- Characters left unescaped by Go's `url.QueryEscape`. -/
def isUnreservedQuery (c : Char) : Bool :=
  c.isAlphanum || c == '-' || c == '_' || c == '.' || c == '~'

/-- Query escaping of one character (space becomes `+`, other reserved
characters are percent-escaped per UTF-8 byte), as in `url.QueryEscape`. -/
def queryEscapeChar (c : Char) : List Char :=
  if isUnreservedQuery c then [c]
  else if c == ' ' then ['+']
  else ((utf8Char c).map escByte).flatten

/-- Model of `url.QueryEscape`. -/
def queryEscape (s : GoString) : GoString := (s.map queryEscapeChar).flatten

/-- Model of Go `url.Values`: an association list of key/value pairs.
`Encode` sorts by key, so only the multiset of pairs is significant. -/
abbrev Values := List (GoString × GoString)

/-- Model of `url.Values.Add`: append one value for a key. -/
def Values.add (v : Values) (k x : GoString) : Values := v ++ [(k, x)]

/-- Model of `url.Values.Set` on a non-nil map: replace all values of `k` by `[x]`.
The nil-map case (which panics in Go) is handled at the call site in `Qbit.req`. -/
def Values.set (v : Values) (k x : GoString) : Values :=
  v.filter (fun p => !(p.1 == k)) ++ [(k, x)]

/-- Total order on Go strings by code point, as used by `sort.Strings`
over the keys in `url.Values.Encode` (UTF-8 byte order coincides with
code-point order). -/
def strLe : GoString → GoString → Bool
  | [], _ => true
  | _ :: _, [] => false
  | a :: as, b :: bs =>
      if a.toNat < b.toNat then true
      else if b.toNat < a.toNat then false
      else strLe as bs

/-- Insertion into a key-sorted pair list (stable for equal keys). -/
def insertSorted (x : GoString × GoString) : Values → Values
  | [] => [x]
  | y :: ys => if strLe x.1 y.1 then x :: y :: ys else y :: insertSorted x ys

/-- Stable sort of the pairs by key, modeling the key sort in `url.Values.Encode`. -/
def sortByKey (l : Values) : Values := l.foldr insertSorted []

/-- One `key=value` component of an encoded query, as in `url.Values.Encode`. -/
def encodePair (p : GoString × GoString) : GoString :=
  queryEscape p.1 ++ '=' :: queryEscape p.2

/-- Join query components with `&`. -/
def joinAmp : List GoString → GoString
  | [] => []
  | [x] => x
  | x :: y :: xs => x ++ '&' :: joinAmp (y :: xs)

/-- Model of `url.Values.Encode` (also the behavior on a nil map: `""`). -/
def Values.encode (v : Values) : GoString := joinAmp ((sortByKey v).map encodePair)

/-- HTTP method; only GET and POST occur in the package. -/
inductive Method where
  | get
  | post
deriving DecidableEq

/-- A built HTTP request, as assembled by `login` and `req`:
method, URL, raw query string, optional body, and headers. -/
structure HTTPRequest where
  method : Method
  url : GoString
  query : GoString
  body : Option GoString
  headers : List (GoString × GoString)
deriving DecidableEq

/-- Outcome of one network exchange: a transport failure from
`client.Do`, or a response with status code, status line and body. -/
inductive HTTPResult where
  | transportError (e : GoString)
  | response (status : Nat) (statusText : GoString) (body : GoString)
deriving DecidableEq

/-- Environment oracle: `parseErr u` is the error (if any) that
`http.NewRequestWithContext` reports for target URL `u`, and `resp k`
is the outcome of the `k`-th network exchange of the call under study. -/
structure Env where
  parseErr : GoString → Option GoString
  resp : Nat → HTTPResult

/-- Model of `context.Context`: `none` carries no deadline, `some t`
a remaining-time budget of `t` (in seconds). -/
abbrev Ctx := Option Nat

/-- Model of `context.WithTimeout`: the effective deadline is the
earlier of the parent deadline and the new one. -/
def withTimeout : Ctx → Nat → Ctx
  | none, d => some d
  | some t, d => some (min t d)

/-- One minute, the package default timeout, in seconds. -/
def timeMinute : Nat := 60

/-- Errors returned by the package, keeping the data each `fmt.Errorf`
format records.  `decodeErr` keeps the HTTP status line that
`"%s: %w"` wraps around the JSON decode error. -/
inductive QErr where
  | reqCreate (method : Method) (e : GoString)
  | httpDo (method : Method) (e : GoString)
  | loginCreate (e : GoString)
  | loginDo (e : GoString)
  | loginFailed (status : GoString) (url : GoString) (body : GoString)
  | decodeErr (status : GoString)
deriving DecidableEq

/-- Result of a call: normal return, error return, or a Go runtime panic. -/
inductive Outcome where
  | ok
  | fail (e : QErr)
  | panicked (msg : GoString)
deriving DecidableEq

/-- Observable events of a call: a request sent by the dispatcher `req`,
an invocation of `login` (with the context it receives), and the
request sent by `login` itself. -/
inductive Event where
  | dispatched (r : HTTPRequest)
  | loginStart (ctx : Ctx)
  | loginSent (r : HTTPRequest)
deriving DecidableEq

/-- Output of `login`: the returned error (`none` means nil error),
the next network-exchange index, and the emitted events. -/
structure LoginOut where
  res : Option QErr
  next : Nat
  evs : List Event
deriving DecidableEq

/-- Output of `req` and its callers. -/
structure RunOut where
  res : Outcome
  next : Nat
  evs : List Event
deriving DecidableEq

/-- State of a caller-supplied `http.Client`: its cookie jar (by id)
and its remaining configuration (transport etc.), which the package
never touches. -/
structure HTTPClientState where
  jar : Option Nat
  transport : Nat
deriving DecidableEq

/-- The `Config` struct of the package. -/
structure GoConfig where
  url : GoString
  user : GoString
  pass : GoString
  httpPass : GoString
  httpUser : GoString
  client : Option HTTPClientState
deriving DecidableEq

/-- The `Qbit` struct: normalized config, precomputed Basic-Auth header
value, and the HTTP client actually used. -/
structure Qbit where
  config : GoConfig
  auth : GoString
  client : HTTPClientState
deriving DecidableEq

/-- The login URL `q.config.URL + "api/v2/auth/login"`. -/
def loginURL (q : Qbit) : GoString := q.config.url ++ toGo "api/v2/auth/login"

/-- The request `login` sends: a form-encoded POST of the configured
credentials (`params.Add("username", ...)`, `params.Add("password", ...)`)
to the login URL. -/
def loginReqOf (q : Qbit) : HTTPRequest :=
  { method := Method.post, url := loginURL q, query := [],
    body := some (Values.encode (Values.add (Values.add [] (toGo "username") q.config.user)
      (toGo "password") q.config.pass)),
    headers := [(toGo "Content-Type", toGo "application/x-www-form-urlencoded")] }

/-- Translation of `(*Qbit).login`: form-encoded POST of the
credentials; success iff the status is 200 and the body contains
`"Ok."`, otherwise an `ErrLoginFailed` error carrying status line,
request URL and raw body. -/
def Qbit.login (q : Qbit) (ctx : Ctx) (env : Env) (n : Nat) : LoginOut :=
  match env.parseErr (loginURL q) with
  | some e => { res := some (QErr.loginCreate e), next := n, evs := [Event.loginStart ctx] }
  | none =>
    match env.resp n with
    | HTTPResult.transportError e =>
        { res := some (QErr.loginDo e), next := n + 1,
          evs := [Event.loginStart ctx, Event.loginSent (loginReqOf q)] }
    | HTTPResult.response status statusText body =>
        if status ≠ 200 ∨ strContains body (toGo "Ok.") = false then
          { res := some (QErr.loginFailed statusText (loginURL q) body), next := n + 1,
            evs := [Event.loginStart ctx, Event.loginSent (loginReqOf q)] }
        else
          { res := none, next := n + 1,
            evs := [Event.loginStart ctx, Event.loginSent (loginReqOf q)] }

/-- The values a request is actually built from: for POST the given
values (a nil map encodes to the empty body), for GET the values after
`val.Set("filter", "all")`. -/
def finalValues (method : Method) (val : Option Values) : Values :=
  match method with
  | Method.post => val.getD []
  | Method.get => Values.set (val.getD []) (toGo "filter") (toGo "all")

/-- The headers `req` sets: `Content-Type` for POST, always `Accept`,
and `Authorization` exactly when the precomputed auth value is non-empty. -/
def mkHeaders (method : Method) (auth : GoString) : List (GoString × GoString) :=
  (match method with
   | Method.post => [(toGo "Content-Type", toGo "application/x-www-form-urlencoded")]
   | Method.get => []) ++
  [(toGo "Accept", toGo "application/json")] ++
  (if auth = [] then [] else [(toGo "Authorization", auth)])

/-- The request `req` sends, given the final values `vq`: POST carries
`vq.Encode()` as body and no query; GET carries `vq.Encode()` as query
and no body. -/
def canonReq (q : Qbit) (method : Method) (uri : GoString) (vq : Values) : HTTPRequest :=
  { method := method, url := uri,
    query := match method with | Method.post => [] | Method.get => Values.encode vq,
    body := match method with | Method.post => some (Values.encode vq) | Method.get => none,
    headers := mkHeaders method q.auth }

/-- The panic message of a Go assignment to an entry of a nil map. -/
def nilMapPanic : GoString := toGo "assignment to entry in nil map"

/-- Body of `(*Qbit).req` up to the point where, after a decode failure
and a successful re-login, the code either retries (`loop` true) or
returns the wrapped decode error (`loop` false); that continuation is
passed in as `retry` (status line, mutated values, next exchange index). -/
def reqCore (q : Qbit) (ctx : Ctx) (method : Method) (uri : GoString) (val : Option Values)
    (dec : GoString → Bool) (env : Env) (n : Nat)
    (retry : GoString → Values → Nat → RunOut) : RunOut :=
  match env.parseErr uri with
  | some e => { res := Outcome.fail (QErr.reqCreate method e), next := n, evs := [] }
  | none =>
    match method, val with
    | Method.get, none =>
        -- `val.Set("filter", "all")` on the nil `url.Values` passed by `getReq`
        { res := Outcome.panicked nilMapPanic, next := n, evs := [] }
    | _, _ =>
      let vq := finalValues method val
      let r := canonReq q method uri vq
      match env.resp n with
      | HTTPResult.transportError e =>
          { res := Outcome.fail (QErr.httpDo method e), next := n + 1,
            evs := [Event.dispatched r] }
      | HTTPResult.response _ statusText rbody =>
        if dec rbody then
          { res := Outcome.ok, next := n + 1, evs := [Event.dispatched r] }
        else
          let L := q.login ctx env (n + 1)
          match L.res with
          | some e => { res := Outcome.fail e, next := L.next, evs := Event.dispatched r :: L.evs }
          | none =>
            let R := retry statusText vq L.next
            { res := R.res, next := R.next, evs := Event.dispatched r :: (L.evs ++ R.evs) }

/-- Translation of `(*Qbit).req`.  The boolean `loop` flag of the Go
code is modeled as a retry budget: `true ↦ 1`, `false ↦ 0`; the retry
re-dispatches the same request with the (in Go, in-place mutated)
values and a cleared flag. -/
def Qbit.req (q : Qbit) (ctx : Ctx) (method : Method) (uri : GoString) (val : Option Values)
    (dec : GoString → Bool) (env : Env) (n : Nat) : Nat → RunOut
  | Nat.succ k => reqCore q ctx method uri val dec env n
      (fun _ vq m => Qbit.req q ctx method uri (some vq) dec env m k)
  | 0 => reqCore q ctx method uri val dec env n
      (fun statusText _ m =>
        { res := Outcome.fail (QErr.decodeErr statusText), next := m, evs := [] })

/-- Translation of `(*Qbit).getReq`: GET with a nil `url.Values`. -/
def Qbit.getReq (q : Qbit) (ctx : Ctx) (path : GoString) (dec : GoString → Bool)
    (env : Env) (n : Nat) : RunOut :=
  q.req ctx Method.get (q.config.url ++ path) none dec env n 1

/-- Translation of `(*Qbit).postReq`. -/
def Qbit.postReq (q : Qbit) (ctx : Ctx) (path : GoString) (values : Values)
    (dec : GoString → Bool) (env : Env) (n : Nat) : RunOut :=
  q.req ctx Method.post (q.config.url ++ path) (some values) dec env n 1

/-- Translation of `(*Qbit).SetTorrentCategoryContext`.  The decode
destination is the Go local `var into map[string]interface{}` passed
by value (a non-pointer, nil map): `encoding/json` rejects any
non-pointer destination (and an empty body yields `io.EOF`), so the
decode step fails for every response body — modeled by the constantly
false decoder. -/
def Qbit.SetTorrentCategoryContext (q : Qbit) (ctx : Ctx) (category : GoString)
    (torrentHashes : List GoString) (env : Env) (n : Nat) : RunOut :=
  let values := Values.set (Values.set [] (toGo "category") category)
    (toGo "hashes") (goJoin torrentHashes (toGo "|"))
  q.postReq ctx (toGo "api/v2/torrents/setCategory") values (fun _ => false) env n

/-- Translation of `(*Qbit).GetXfersContext`; the JSON decode into
`[]*Xfer` is abstracted by the decoder `dec`. -/
def Qbit.GetXfersContext (q : Qbit) (ctx : Ctx) (dec : GoString → Bool)
    (env : Env) (n : Nat) : RunOut :=
  q.getReq ctx (toGo "api/v2/torrents/info") dec env n

/-- Translation of `(*Qbit).GetCategoriesContext`; the JSON decode into
`map[string]*Category` is abstracted by the decoder `dec`. -/
def Qbit.GetCategoriesContext (q : Qbit) (ctx : Ctx) (dec : GoString → Bool)
    (env : Env) (n : Nat) : RunOut :=
  q.getReq ctx (toGo "api/v2/torrents/categories") dec env n

/-- Output of `newConfig`: the built `Qbit`, the caller's `Config` and
client object after the in-place mutations, the returned error, and
the login trace. -/
structure NewOut where
  qbit : Qbit
  cfgAfter : GoConfig
  clientAfter : HTTPClientState
  res : Option QErr
  evs : List Event
  next : Nat
deriving DecidableEq

/-- Translation of `newConfig`.  `jarId` identifies the freshly created
cookie jar (`cookiejar.New` cannot fail with the fixed valid options);
`doLogin` is the `login` flag.  The URL field of the caller's config is
rewritten in place and the jar of the (possibly caller-supplied) client
is overwritten. -/
def newConfig (ctx : Ctx) (config : GoConfig) (doLogin : Bool) (jarId : Nat)
    (env : Env) (n : Nat) : NewOut :=
  let cfg2 : GoConfig := { config with url := normalizeURL config.url }
  let auth0 := config.httpUser ++ toGo ":" ++ config.httpPass
  let auth := if auth0 ≠ toGo ":" then toGo "Basic " ++ base64Chars (utf8Bytes auth0) else []
  let httpClient := config.client.getD { jar := none, transport := 0 }
  let clientAfter : HTTPClientState := { httpClient with jar := some jarId }
  let q : Qbit := { config := cfg2, auth := auth, client := clientAfter }
  if doLogin then
    let L := q.login (withTimeout ctx timeMinute) env n
    { qbit := q, cfgAfter := cfg2, clientAfter := clientAfter,
      res := L.res, evs := L.evs, next := L.next }
  else
    { qbit := q, cfgAfter := cfg2, clientAfter := clientAfter,
      res := none, evs := [], next := n }

/-- Translation of `New`: eager login under a one-minute timeout. -/
def New (ctx : Ctx) (config : GoConfig) (jarId : Nat) (env : Env) (n : Nat) : NewOut :=
  newConfig ctx config true jarId env n

/-- Translation of `NewNoAuth`: `context.TODO()` and no login. -/
def NewNoAuth (config : GoConfig) (jarId : Nat) (env : Env) (n : Nat) : NewOut :=
  newConfig none config false jarId env n

/-- Number of `login` invocations recorded in a trace. -/
def countLogins (evs : List Event) : Nat :=
  evs.countP (fun e => match e with | Event.loginStart _ => true | _ => false)

/-- Number of dispatcher requests recorded in a trace. -/
def countDispatched (evs : List Event) : Nat :=
  evs.countP (fun e => match e with | Event.dispatched _ => true | _ => false)

theorem strContains_nil_right (s : GoString) : strContains s [] = true := by
  cases s <;> simp [strContains, List.isPrefixOf]

theorem isPrefixOf_append_self (s t : GoString) : s.isPrefixOf (s ++ t) = true := by
  induction s with
  | nil => simp [List.isPrefixOf]
  | cons c cs ih => simp [List.isPrefixOf, ih]

theorem strContains_append (a s b : GoString) : strContains (a ++ (s ++ b)) s = true := by
  induction a with
  | nil =>
    cases s with
    | nil => simpa using strContains_nil_right b
    | cons c cs =>
      show ((c :: cs).isPrefixOf ((c :: cs) ++ b) || strContains (cs ++ b) (c :: cs)) = true
      rw [isPrefixOf_append_self]
      simp
  | cons c t ih => simp [strContains, ih]

theorem trimSuffix_concat (x suf : GoString) : trimSuffix (x ++ suf) suf = x := by
  have h : suf.isSuffixOf (x ++ suf) = true := by
    rw [List.isSuffixOf_iff_suffix]
    exact List.suffix_append x suf
  rw [trimSuffix, if_pos h, List.length_append, Nat.add_sub_cancel, List.take_left]

theorem trimSuffix_of_no_suffix (u suf : GoString) (h : suf.isSuffixOf u = false) :
    trimSuffix u suf = u := by
  rw [trimSuffix, if_neg]
  simp [h]

theorem Values.set_set (v : Values) (k x : GoString) :
    Values.set (Values.set v k x) k x = Values.set v k x := by
  simp [Values.set, List.filter_append, List.filter_filter]

theorem finalValues_fix (method : Method) (val : Option Values) :
    finalValues method (some (finalValues method val)) = finalValues method val := by
  cases method with
  | post => rfl
  | get => simp [finalValues, Values.set_set]

theorem mem_insertSorted {y x : GoString × GoString} {l : Values} :
    y ∈ insertSorted x l ↔ y = x ∨ y ∈ l := by
  induction l with
  | nil => simp [insertSorted]
  | cons z zs ih =>
    unfold insertSorted
    split
    · simp [or_comm, or_left_comm, or_assoc]
    · simp only [List.mem_cons, ih]
      tauto

theorem mem_sortByKey {x : GoString × GoString} {l : Values} (h : x ∈ l) : x ∈ sortByKey l := by
  induction l with
  | nil => simp at h
  | cons z zs ih =>
    rw [show sortByKey (z :: zs) = insertSorted z (sortByKey zs) from rfl, mem_insertSorted]
    rcases List.mem_cons.mp h with h1 | h2
    · exact Or.inl h1
    · exact Or.inr (ih h2)

theorem joinAmp_mem_decomp {x : GoString} {l : List GoString} (h : x ∈ l) :
    ∃ a b, joinAmp l = a ++ (x ++ b) := by
  induction l with
  | nil => simp at h
  | cons y ys ih =>
    rcases List.mem_cons.mp h with rfl | hy
    · cases ys with
      | nil => exact ⟨[], [], by simp [joinAmp]⟩
      | cons z zs => exact ⟨[], '&' :: joinAmp (z :: zs), by simp [joinAmp]⟩
    · obtain ⟨a, b, hab⟩ := ih hy
      cases ys with
      | nil => simp at hy
      | cons z zs =>
        refine ⟨y ++ '&' :: a, b, ?_⟩
        simp [joinAmp, hab]

theorem encode_contains {p : GoString × GoString} {v : Values} (h : p ∈ v) :
    strContains (Values.encode v) (encodePair p) = true := by
  have h2 : encodePair p ∈ (sortByKey v).map encodePair :=
    List.mem_map_of_mem _ (mem_sortByKey h)
  obtain ⟨a, b, hab⟩ := joinAmp_mem_decomp h2
  rw [Values.encode, hab]
  exact strContains_append a _ b

theorem login_evs_cases (q : Qbit) (ctx : Ctx) (env : Env) (n : Nat) :
    (q.login ctx env n).evs = [Event.loginStart ctx] ∨
    (q.login ctx env n).evs = [Event.loginStart ctx, Event.loginSent (loginReqOf q)] := by
  unfold Qbit.login
  cases env.parseErr (loginURL q) with
  | some e => simp
  | none =>
    cases env.resp n with
    | transportError e => simp
    | response s st b =>
      by_cases h : (¬s = 200 ∨ strContains b (toGo "Ok.") = false) <;> simp [h]

theorem login_countLogins (q : Qbit) (ctx : Ctx) (env : Env) (n : Nat) :
    countLogins (q.login ctx env n).evs = 1 := by
  rcases login_evs_cases q ctx env n with h | h <;> simp [h, countLogins]

theorem login_countDispatched (q : Qbit) (ctx : Ctx) (env : Env) (n : Nat) :
    countDispatched (q.login ctx env n).evs = 0 := by
  rcases login_evs_cases q ctx env n with h | h <;> simp [h, countDispatched]

theorem login_no_dispatched {q : Qbit} {ctx : Ctx} {env : Env} {n : Nat} {r : HTTPRequest}
    (h : Event.dispatched r ∈ (q.login ctx env n).evs) : False := by
  rcases login_evs_cases q ctx env n with he | he <;> rw [he] at h <;> simp at h

theorem login_loginStart_ctx {q : Qbit} {ctx c : Ctx} {env : Env} {n : Nat}
    (h : Event.loginStart c ∈ (q.login ctx env n).evs) : c = ctx := by
  rcases login_evs_cases q ctx env n with he | he <;> rw [he] at h <;> simp at h <;> exact h

theorem reqCore_evs_mem {q : Qbit} {ctx : Ctx} {method : Method} {uri : GoString}
    {val : Option Values} {dec : GoString → Bool} {env : Env} {n : Nat}
    {retry : GoString → Values → Nat → RunOut} {e : Event}
    (h : e ∈ (reqCore q ctx method uri val dec env n retry).evs) :
    e = Event.dispatched (canonReq q method uri (finalValues method val)) ∨
    (∃ m, e ∈ (q.login ctx env m).evs) ∨
    (∃ st m, e ∈ (retry st (finalValues method val) m).evs) := by
  simp only [reqCore] at h
  split at h
  · simp at h
  · split at h
    · simp at h
    · split at h
      · simp at h
        exact Or.inl h
      · split at h
        · simp at h
          exact Or.inl h
        · split at h
          · rcases List.mem_cons.mp h with h1 | h2
            · exact Or.inl h1
            · exact Or.inr (Or.inl ⟨n + 1, h2⟩)
          · rcases List.mem_cons.mp h with h1 | h2
            · exact Or.inl h1
            · rcases List.mem_append.mp h2 with h3 | h4
              · exact Or.inr (Or.inl ⟨n + 1, h3⟩)
              · exact Or.inr (Or.inr ⟨_, _, h4⟩)

theorem req_dispatched_canon (loop : Nat) (q : Qbit) (ctx : Ctx) (method : Method)
    (uri : GoString) (val : Option Values) (dec : GoString → Bool) (env : Env) (n : Nat)
    (r : HTTPRequest)
    (h : Event.dispatched r ∈ (q.req ctx method uri val dec env n loop).evs) :
    r = canonReq q method uri (finalValues method val) := by
  induction loop generalizing val n with
  | zero =>
    simp only [Qbit.req] at h
    rcases reqCore_evs_mem h with h1 | ⟨m, h2⟩ | ⟨st, m, h3⟩
    · simpa using h1
    · exact (login_no_dispatched h2).elim
    · simp at h3
  | succ k ih =>
    simp only [Qbit.req] at h
    rcases reqCore_evs_mem h with h1 | ⟨m, h2⟩ | ⟨st, m, h3⟩
    · simpa using h1
    · exact (login_no_dispatched h2).elim
    · have h4 := ih (some (finalValues method val)) m h3
      rw [h4, finalValues_fix]

theorem req_loginStart_ctx (loop : Nat) (q : Qbit) (ctx : Ctx) (method : Method)
    (uri : GoString) (val : Option Values) (dec : GoString → Bool) (env : Env) (n : Nat)
    (c : Ctx) (h : Event.loginStart c ∈ (q.req ctx method uri val dec env n loop).evs) :
    c = ctx := by
  induction loop generalizing val n with
  | zero =>
    simp only [Qbit.req] at h
    rcases reqCore_evs_mem h with h1 | ⟨m, h2⟩ | ⟨st, m, h3⟩
    · simp at h1
    · exact login_loginStart_ctx h2
    · simp at h3
  | succ k ih =>
    simp only [Qbit.req] at h
    rcases reqCore_evs_mem h with h1 | ⟨m, h2⟩ | ⟨st, m, h3⟩
    · simp at h1
    · exact login_loginStart_ctx h2
    · exact ih (some (finalValues method val)) m h3

/-- Sample configuration used by witnesses. -/
def cfg0 : GoConfig :=
  { url := toGo "http://host", user := toGo "u", pass := toGo "p",
    httpPass := [], httpUser := [], client := none }

/-- A 200 response whose body is not the expected JSON shape. -/
def respBad : HTTPResult := HTTPResult.response 200 (toGo "200 OK") (toGo "<html>")

/-- A successful login response. -/
def respLoginOk : HTTPResult := HTTPResult.response 200 (toGo "200 OK") (toGo "Ok.")

/-- A response carrying the JSON body `[]`. -/
def respGood : HTTPResult := HTTPResult.response 200 (toGo "200 OK") (toGo "[]")

/-- Environment where every exchange returns the JSON body `[]`. -/
def envPlain : Env := { parseErr := fun _ => none, resp := fun _ => respGood }

/-- Environment where the dispatcher's exchanges (0 and 2) return an
undecodable body while the login exchanges (1 and 3) succeed. -/
def envRelogin : Env :=
  { parseErr := fun _ => none,
    resp := fun k => if k = 1 ∨ k = 3 then respLoginOk else respBad }

/-- A decoder succeeding exactly on the body `[]`. -/
def decList (b : GoString) : Bool := b == toGo "[]"

/-- Sample client built by construction without login. -/
def q0 : Qbit := (NewNoAuth cfg0 0 envPlain 0).qbit

theorem login_res_response (q : Qbit) (ctx : Ctx) (env : Env) (n : Nat) (s : Nat)
    (st b : GoString)
    (hp : env.parseErr (loginURL q) = none) (hr : env.resp n = HTTPResult.response s st b) :
    q.login ctx env n =
      { res := if s ≠ 200 ∨ strContains b (toGo "Ok.") = false
          then some (QErr.loginFailed st (loginURL q) b) else none,
        next := n + 1,
        evs := [Event.loginStart ctx, Event.loginSent (loginReqOf q)] } := by
  simp only [Qbit.login, hp, hr]
  split <;> rfl

/-- C4: login succeeds exactly when the HTTP status is 200 and the body
contains the literal `"Ok."`; any other status, or a 200 body without
the marker, yields an authentication-failed error carrying the response
status line, the request URL and the raw body. -/
theorem c4_login_success_criterion (q : Qbit) (ctx : Ctx) (env : Env) (n : Nat) (s : Nat)
    (st b : GoString)
    (hp : env.parseErr (loginURL q) = none) (hr : env.resp n = HTTPResult.response s st b) :
    ((q.login ctx env n).res = none ↔ (s = 200 ∧ strContains b (toGo "Ok.") = true)) ∧
    ((s ≠ 200 ∨ strContains b (toGo "Ok.") = false) →
      (q.login ctx env n).res = some (QErr.loginFailed st (loginURL q) b)) := by
  rw [login_res_response q ctx env n s st b hp hr]
  refine ⟨⟨?_, ?_⟩, ?_⟩
  · intro h
    split at h
    · simp at h
    · rename_i hc
      simp only [not_or, ne_eq, not_not, Bool.not_eq_false] at hc
      exact hc
  · rintro ⟨h1, h2⟩
    simp [h1, h2]
  · intro hc
    simp only []
    rw [if_pos (by tauto)]

/-- C4 witness: a concrete 200 response containing `"Ok."` satisfies the
criterion. -/
theorem c4_login_success_criterion_witness :
    ((q0.login none envRelogin 1).res = none ↔
      (200 = 200 ∧ strContains (toGo "Ok.") (toGo "Ok.") = true)) ∧
    ((200 ≠ 200 ∨ strContains (toGo "Ok.") (toGo "Ok.") = false) →
      (q0.login none envRelogin 1).res =
        some (QErr.loginFailed (toGo "200 OK") (loginURL q0) (toGo "Ok."))) :=
  c4_login_success_criterion q0 none envRelogin 1 200 (toGo "200 OK") (toGo "Ok.") rfl rfl

/-- C9: construction normalizes the URL by appending a trailing slash
exactly once (idempotently), the stored URL always ends in `/`, and a
URL without a trailing slash and the same URL with one produce the same
final request URL for every path. -/
theorem c9_url_normalization (ctx : Ctx) (cfg : GoConfig) (doLogin : Bool) (jid : Nat)
    (env : Env) (n : Nat) (path : GoString) :
    (newConfig ctx cfg doLogin jid env n).qbit.config.url = normalizeURL cfg.url ∧
    (normalizeURL cfg.url).getLast? = some '/' ∧
    normalizeURL (normalizeURL cfg.url) = normalizeURL cfg.url ∧
    ((toGo "/").isSuffixOf cfg.url = false →
      normalizeURL (cfg.url ++ toGo "/") ++ path = normalizeURL cfg.url ++ path) := by
  refine ⟨?_, ?_, ?_, ?_⟩
  · cases doLogin <;> rfl
  · rw [normalizeURL, show toGo "/" = ['/'] from rfl, List.getLast?_concat]
  · simp only [normalizeURL]
    rw [trimSuffix_concat]
  · intro h
    simp only [normalizeURL]
    rw [trimSuffix_concat, trimSuffix_of_no_suffix _ _ h]

/-- C9 witness: a concrete URL without trailing slash. -/
theorem c9_url_normalization_witness :
    (toGo "/").isSuffixOf cfg0.url = false ∧
    normalizeURL (cfg0.url ++ toGo "/") ++ toGo "api/v2/torrents/info" =
      normalizeURL cfg0.url ++ toGo "api/v2/torrents/info" :=
  ⟨by decide,
   (c9_url_normalization none cfg0 false 0 envPlain 0 (toGo "api/v2/torrents/info")).2.2.2
     (by decide)⟩

/-- C10: construction rewrites the caller's Config URL in place to the
normalized form (all other Config fields unchanged) and overwrites the
Jar of any caller-supplied http.Client with the freshly created cookie
jar, discarding the jar the caller had installed. -/
theorem c10_construction_mutation (ctx : Ctx) (cfg : GoConfig) (doLogin : Bool) (jid : Nat)
    (env : Env) (n : Nat) :
    (newConfig ctx cfg doLogin jid env n).cfgAfter = { cfg with url := normalizeURL cfg.url } ∧
    (newConfig ctx cfg doLogin jid env n).qbit.config = { cfg with url := normalizeURL cfg.url } ∧
    (∀ c, cfg.client = some c →
      (newConfig ctx cfg doLogin jid env n).clientAfter = { c with jar := some jid }) := by
  refine ⟨?_, ?_, ?_⟩
  · cases doLogin <;> rfl
  · cases doLogin <;> rfl
  · intro c hc
    cases doLogin <;> simp [newConfig, hc]

/-- A caller-supplied client with its own jar, for the C10 witness. -/
def clientC : HTTPClientState := { jar := some 7, transport := 5 }

/-- A configuration supplying `clientC`, for the C10 witness. -/
def cfgC : GoConfig := { cfg0 with client := some clientC }

/-- C10 witness: the caller's jar (id 7) is replaced by the fresh jar (id 3). -/
theorem c10_construction_mutation_witness :
    (newConfig none cfgC false 3 envPlain 0).clientAfter = { clientC with jar := some 3 } :=
  (c10_construction_mutation none cfgC false 3 envPlain 0).2.2 clientC rfl

theorem colon_concat_eq (u p : GoString) :
    u ++ toGo ":" ++ p = toGo ":" ↔ (u = [] ∧ p = []) := by
  rw [show toGo ":" = [':'] from rfl]
  constructor
  · intro h
    have hlen := congrArg List.length h
    simp only [List.length_append, List.length_cons, List.length_nil] at hlen
    exact ⟨List.length_eq_zero.mp (by omega), List.length_eq_zero.mp (by omega)⟩
  · rintro ⟨rfl, rfl⟩
    rfl

theorem authz_ne_ct : toGo "Authorization" ≠ toGo "Content-Type" := by decide

theorem authz_ne_accept : toGo "Authorization" ≠ toGo "Accept" := by decide

theorem basicPrefix_ne_nil : toGo "Basic " ≠ [] := by decide

theorem newConfig_auth (ctx : Ctx) (cfg : GoConfig) (doLogin : Bool) (jid : Nat)
    (env : Env) (n : Nat) :
    (newConfig ctx cfg doLogin jid env n).qbit.auth =
      (if cfg.httpUser ++ toGo ":" ++ cfg.httpPass ≠ toGo ":"
        then toGo "Basic " ++ base64Chars (utf8Bytes (cfg.httpUser ++ toGo ":" ++ cfg.httpPass))
        else []) := by
  cases doLogin <;> rfl

/-- C7: the precomputed Basic-Auth value is empty exactly when both
proxy credentials are empty, and otherwise is `"Basic "` followed by
the base64 of `user:pass`; every request sent by the dispatcher carries
it as the `Authorization` header when non-empty, and carries no
`Authorization` header when it is empty. -/
theorem c7_basic_auth (ctx : Ctx) (cfg : GoConfig) (doLogin : Bool) (jid : Nat)
    (env : Env) (n : Nat) :
    ((newConfig ctx cfg doLogin jid env n).qbit.auth = [] ↔
      (cfg.httpUser = [] ∧ cfg.httpPass = [])) ∧
    (¬(cfg.httpUser = [] ∧ cfg.httpPass = []) →
      (newConfig ctx cfg doLogin jid env n).qbit.auth =
        toGo "Basic " ++ base64Chars (utf8Bytes (cfg.httpUser ++ toGo ":" ++ cfg.httpPass))) ∧
    (∀ (q : Qbit) (ctx2 : Ctx) (method : Method) (uri : GoString) (val : Option Values)
        (dec : GoString → Bool) (env2 : Env) (n2 loop : Nat) (r : HTTPRequest),
      Event.dispatched r ∈ (q.req ctx2 method uri val dec env2 n2 loop).evs →
      ((q.auth = [] → ∀ x, (toGo "Authorization", x) ∉ r.headers) ∧
       (q.auth ≠ [] → (toGo "Authorization", q.auth) ∈ r.headers))) := by
  refine ⟨?_, ?_, ?_⟩
  · rw [newConfig_auth]
    by_cases hb : cfg.httpUser ++ toGo ":" ++ cfg.httpPass = toGo ":"
    · rw [if_neg (by simpa using hb)]
      simpa using (colon_concat_eq cfg.httpUser cfg.httpPass).mp hb
    · rw [if_pos hb]
      constructor
      · intro h
        exact absurd h (List.append_ne_nil_of_left_ne_nil basicPrefix_ne_nil _)
      · intro h
        exact absurd ((colon_concat_eq cfg.httpUser cfg.httpPass).mpr h) hb
  · intro h
    rw [newConfig_auth, if_pos]
    intro hb
    exact h ((colon_concat_eq cfg.httpUser cfg.httpPass).mp hb)
  · intro q ctx2 method uri val dec env2 n2 loop r hmem
    have hc := req_dispatched_canon loop q ctx2 method uri val dec env2 n2 r hmem
    have hh : r.headers = mkHeaders method q.auth := by rw [hc]; rfl
    rw [hh]
    constructor
    · intro ha x
      simp only [mkHeaders]
      rw [if_pos ha]
      cases method <;>
        simp [authz_ne_ct, authz_ne_accept]
    · intro ha
      simp only [mkHeaders]
      rw [if_neg ha]
      simp

/-- A configuration with proxy credentials, for the C7 witness. -/
def cfgB : GoConfig := { cfg0 with httpUser := toGo "admin", httpPass := toGo "pw" }

/-- The client built from `cfgB`. -/
def qB : Qbit := (newConfig none cfgB false 0 envPlain 0).qbit

/-- The GET request `qB` dispatches for path `http://host/x` with empty values. -/
def rB : HTTPRequest :=
  canonReq qB Method.get (toGo "http://host/x")
    (Values.set [] (toGo "filter") (toGo "all"))

/-- C7 witness: concrete credentials produce the Basic header value and
it appears in a concretely dispatched request. -/
theorem c7_basic_auth_witness :
    ¬(cfgB.httpUser = [] ∧ cfgB.httpPass = []) ∧
    qB.auth = toGo "Basic " ++ base64Chars (utf8Bytes (cfgB.httpUser ++ toGo ":" ++ cfgB.httpPass)) ∧
    (toGo "Authorization", qB.auth) ∈ rB.headers :=
  ⟨by decide,
   (c7_basic_auth none cfgB false 0 envPlain 0).2.1 (by decide),
   ((c7_basic_auth none cfgB false 0 envPlain 0).2.2 qB none Method.get (toGo "http://host/x")
      (some []) decList envPlain 0 1 rB (by decide)).2 (by decide)⟩

/-- C5: a read (GET) call through the dispatcher whose first response
body decodes successfully returns ok without ever invoking login. -/
theorem c5_first_decode_success_no_login (q : Qbit) (ctx : Ctx) (uri : GoString) (vs : Values)
    (dec : GoString → Bool) (env : Env) (n : Nat) (s : Nat) (st b : GoString)
    (hp : env.parseErr uri = none) (hr : env.resp n = HTTPResult.response s st b)
    (hd : dec b = true) :
    (q.req ctx Method.get uri (some vs) dec env n 1).res = Outcome.ok ∧
    countLogins (q.req ctx Method.get uri (some vs) dec env n 1).evs = 0 ∧
    countDispatched (q.req ctx Method.get uri (some vs) dec env n 1).evs = 1 := by
  simp only [Qbit.req, reqCore, hp, hr, hd]
  simp [countLogins, countDispatched]

/-- C5 witness: a concrete GET whose first response is decodable JSON. -/
theorem c5_first_decode_success_no_login_witness :
    (q0.req none Method.get (toGo "http://host/x") (some []) decList envPlain 0 1).res =
      Outcome.ok ∧
    countLogins (q0.req none Method.get (toGo "http://host/x") (some []) decList envPlain 0 1).evs = 0 ∧
    countDispatched
      (q0.req none Method.get (toGo "http://host/x") (some []) decList envPlain 0 1).evs = 1 :=
  c5_first_decode_success_no_login q0 none (toGo "http://host/x") [] decList envPlain 0
    200 (toGo "200 OK") (toGo "[]") rfl rfl rfl

/-- C6: every GET request the dispatcher sends carries no body, its
query string is the encoding of the caller-supplied values with
`filter=all` set, and the component `filter=all` occurs in the query
string. -/
theorem c6_get_query_construction (q : Qbit) (ctx : Ctx) (uri : GoString) (vs : Values)
    (dec : GoString → Bool) (env : Env) (n loop : Nat) (r : HTTPRequest)
    (h : Event.dispatched r ∈ (q.req ctx Method.get uri (some vs) dec env n loop).evs) :
    r.body = none ∧
    r.query = Values.encode (Values.set vs (toGo "filter") (toGo "all")) ∧
    strContains r.query (toGo "filter=all") = true := by
  have hc := req_dispatched_canon loop q ctx Method.get uri (some vs) dec env n r h
  rw [hc]
  refine ⟨rfl, rfl, ?_⟩
  have hmem : (toGo "filter", toGo "all") ∈ Values.set vs (toGo "filter") (toGo "all") :=
    List.mem_append_right _ (List.mem_singleton.mpr rfl)
  have h2 := encode_contains hmem
  rw [show encodePair (toGo "filter", toGo "all") = toGo "filter=all" from by decide] at h2
  exact h2

/-- C6 witness: the concretely dispatched GET request has no body and
carries `filter=all` in its query. -/
theorem c6_get_query_construction_witness :
    rB.body = none ∧
    rB.query = Values.encode (Values.set [] (toGo "filter") (toGo "all")) ∧
    strContains rB.query (toGo "filter=all") = true :=
  c6_get_query_construction qB none (toGo "http://host/x") [] decList envPlain 0 1 rB
    (by decide)

/-- C2: contrary to the claim, the read path does not complete the
`filter=all` addition without a runtime fault: `getReq` passes a nil
`url.Values` to `req`, whose GET branch executes
`val.Set("filter", "all")` on the nil map — a Go runtime panic
(assignment to entry in nil map) raised before any request is sent,
on every read call such as `GetXfersContext`. -/
theorem c2_read_path_panics (q : Qbit) (ctx : Ctx) (dec : GoString → Bool) (env : Env) (n : Nat)
    (hp : env.parseErr (q.config.url ++ toGo "api/v2/torrents/info") = none) :
    (q.GetXfersContext ctx dec env n).res = Outcome.panicked nilMapPanic ∧
    (q.GetXfersContext ctx dec env n).evs = [] := by
  simp [Qbit.GetXfersContext, Qbit.getReq, Qbit.req, reqCore, hp]

/-- C2 witness: the panic on a concrete client and environment. -/
theorem c2_read_path_panics_witness :
    (q0.GetXfersContext none decList envPlain 0).res = Outcome.panicked nilMapPanic ∧
    (q0.GetXfersContext none decList envPlain 0).evs = [] :=
  c2_read_path_panics q0 none decList envPlain 0 rfl

theorem countLogins_nil : countLogins [] = 0 := rfl

theorem countLogins_cons_dispatched (r : HTTPRequest) (l : List Event) :
    countLogins (Event.dispatched r :: l) = countLogins l := by
  simp [countLogins]

theorem countLogins_append (l1 l2 : List Event) :
    countLogins (l1 ++ l2) = countLogins l1 + countLogins l2 := by
  simp [countLogins, List.countP_append]

theorem countDispatched_nil : countDispatched [] = 0 := rfl

theorem countDispatched_cons_dispatched (r : HTTPRequest) (l : List Event) :
    countDispatched (Event.dispatched r :: l) = countDispatched l + 1 := by
  simp [countDispatched, List.countP_cons]

theorem countDispatched_append (l1 l2 : List Event) :
    countDispatched (l1 ++ l2) = countDispatched l1 + countDispatched l2 := by
  simp [countDispatched, List.countP_append]

theorem reqCore_post_fail (q : Qbit) (ctx : Ctx) (uri : GoString) (val : Option Values)
    (env : Env) (n : Nat) (retry : GoString → Values → Nat → RunOut)
    (hretry : ∀ st vq m, ∃ e, (retry st vq m).res = Outcome.fail e) :
    ∃ e, (reqCore q ctx Method.post uri val (fun _ => false) env n retry).res =
      Outcome.fail e := by
  simp only [reqCore]
  cases hp : env.parseErr uri with
  | some e => exact ⟨_, rfl⟩
  | none =>
    cases hr : env.resp n with
    | transportError e => exact ⟨_, rfl⟩
    | response s st b =>
      cases hL : (q.login ctx env (n + 1)).res with
      | some e => simp [hL]
      | none =>
        obtain ⟨e, he⟩ := hretry st (finalValues Method.post val) (q.login ctx env (n + 1)).next
        exact ⟨e, by simp [hL, he]⟩

theorem req_post_never_ok (loop : Nat) (q : Qbit) (ctx : Ctx) (uri : GoString)
    (val : Option Values) (env : Env) (n : Nat) :
    ∃ e, (q.req ctx Method.post uri val (fun _ => false) env n loop).res = Outcome.fail e := by
  induction loop generalizing val n with
  | zero =>
    exact reqCore_post_fail q ctx uri val env n _ (fun st vq m => ⟨_, rfl⟩)
  | succ k ih =>
    exact reqCore_post_fail q ctx uri val env n _ (fun st vq m => ih (some vq) m)

theorem reqCore_post_login (q : Qbit) (ctx : Ctx) (uri : GoString) (val : Option Values)
    (env : Env) (n : Nat) (retry : GoString → Values → Nat → RunOut) (s : Nat)
    (st b : GoString)
    (hp : env.parseErr uri = none) (hr : env.resp n = HTTPResult.response s st b) :
    1 ≤ countLogins (reqCore q ctx Method.post uri val (fun _ => false) env n retry).evs := by
  simp only [reqCore, hp, hr]
  cases hL : (q.login ctx env (n + 1)).res with
  | some e =>
    simp [hL, countLogins_cons_dispatched, login_countLogins]
  | none =>
    simp [hL, countLogins_cons_dispatched, countLogins_append, login_countLogins]

/-- C3: every `SetTorrentCategoryContext` call returns a non-nil error —
the decode destination is the non-pointer nil map `into`, so the decode
step never succeeds and the promised success return is unreachable —
and whenever the server answers the first request with any response,
the re-authentication path is triggered. -/
theorem c3_set_category_always_fails (q : Qbit) (ctx : Ctx) (category : GoString)
    (torrentHashes : List GoString) (env : Env) (n : Nat) :
    (∃ e, (q.SetTorrentCategoryContext ctx category torrentHashes env n).res =
      Outcome.fail e) ∧
    (env.parseErr (q.config.url ++ toGo "api/v2/torrents/setCategory") = none →
      ∀ s st b, env.resp n = HTTPResult.response s st b →
        1 ≤ countLogins (q.SetTorrentCategoryContext ctx category torrentHashes env n).evs) := by
  constructor
  · exact req_post_never_ok 1 q ctx (q.config.url ++ toGo "api/v2/torrents/setCategory") _ env n
  · intro hp s st b hr
    exact reqCore_post_login q ctx (q.config.url ++ toGo "api/v2/torrents/setCategory") _
      env n _ s st b hp hr

/-- C3 witness: a concrete category update against a server returning a
normal 200 response still fails and invokes login. -/
theorem c3_set_category_always_fails_witness :
    (∃ e, (q0.SetTorrentCategoryContext none (toGo "movies") [toGo "abc", toGo "def"]
      envPlain 0).res = Outcome.fail e) ∧
    1 ≤ countLogins (q0.SetTorrentCategoryContext none (toGo "movies")
      [toGo "abc", toGo "def"] envPlain 0).evs :=
  ⟨(c3_set_category_always_fails q0 none (toGo "movies") [toGo "abc", toGo "def"] envPlain 0).1,
   (c3_set_category_always_fails q0 none (toGo "movies") [toGo "abc", toGo "def"] envPlain 0).2
     rfl 200 (toGo "200 OK") (toGo "[]") rfl⟩

/-- C1 counterexample: with both dispatcher responses undecodable and
both logins succeeding, a single dispatched call performs TWO login
attempts — the retry's decode failure triggers a further login before
the decode error (wrapping the retry's HTTP status) is returned — so
"exactly one login attempt ... with no further login attempts" fails. -/
theorem c1_exactly_one_login_counterexample :
    countLogins (q0.req none Method.get (toGo "http://host/x") (some [])
      decList envRelogin 0 1).evs = 2 ∧
    (q0.req none Method.get (toGo "http://host/x") (some []) decList envRelogin 0 1).res =
      Outcome.fail (QErr.decodeErr (toGo "200 OK")) := by
  decide

/-- C1 amended: on a first-response decode failure the dispatcher
performs one login attempt; if that login fails its error is returned
with no retry (one request, one login).  If it succeeds, the same
request is retried exactly once; a decodable retry response yields
success with a single login, while a second decode failure triggers a
second login attempt, after which the call returns the login error (if
that login fails) or a decode error wrapping the retry's HTTP status
(if it succeeds).  At most two requests and two logins ever occur, and
all dispatched requests are identical. -/
theorem c1_amended_retry_policy (q : Qbit) (ctx : Ctx) (method : Method) (uri : GoString)
    (vs : Values) (dec : GoString → Bool) (env : Env) (n s : Nat) (st b : GoString)
    (hp : env.parseErr uri = none)
    (hr0 : env.resp n = HTTPResult.response s st b)
    (hd0 : dec b = false) :
    (∀ e, (q.login ctx env (n + 1)).res = some e →
      (q.req ctx method uri (some vs) dec env n 1).res = Outcome.fail e ∧
      countLogins (q.req ctx method uri (some vs) dec env n 1).evs = 1 ∧
      countDispatched (q.req ctx method uri (some vs) dec env n 1).evs = 1) ∧
    ((q.login ctx env (n + 1)).res = none →
      (∀ e2, env.resp (q.login ctx env (n + 1)).next = HTTPResult.transportError e2 →
        (q.req ctx method uri (some vs) dec env n 1).res =
          Outcome.fail (QErr.httpDo method e2) ∧
        countLogins (q.req ctx method uri (some vs) dec env n 1).evs = 1 ∧
        countDispatched (q.req ctx method uri (some vs) dec env n 1).evs = 2) ∧
      (∀ s2 st2 b2, env.resp (q.login ctx env (n + 1)).next = HTTPResult.response s2 st2 b2 →
        (dec b2 = true →
          (q.req ctx method uri (some vs) dec env n 1).res = Outcome.ok ∧
          countLogins (q.req ctx method uri (some vs) dec env n 1).evs = 1 ∧
          countDispatched (q.req ctx method uri (some vs) dec env n 1).evs = 2) ∧
        (dec b2 = false →
          countLogins (q.req ctx method uri (some vs) dec env n 1).evs = 2 ∧
          countDispatched (q.req ctx method uri (some vs) dec env n 1).evs = 2 ∧
          ((q.login ctx env ((q.login ctx env (n + 1)).next + 1)).res = none →
            (q.req ctx method uri (some vs) dec env n 1).res =
              Outcome.fail (QErr.decodeErr st2)) ∧
          (∀ e3, (q.login ctx env ((q.login ctx env (n + 1)).next + 1)).res = some e3 →
            (q.req ctx method uri (some vs) dec env n 1).res = Outcome.fail e3)))) ∧
    (∀ r1 r2, Event.dispatched r1 ∈ (q.req ctx method uri (some vs) dec env n 1).evs →
      Event.dispatched r2 ∈ (q.req ctx method uri (some vs) dec env n 1).evs → r1 = r2) := by
  cases method <;>
  · refine ⟨?_, ?_, ?_⟩
    · intro e hL
      simp only [Qbit.req, reqCore, hp, hr0, hd0, hL]
      simp [countLogins_cons_dispatched, login_countLogins,
        countDispatched_cons_dispatched, login_countDispatched]
    · intro hL
      refine ⟨?_, ?_⟩
      · intro e2 hr2
        simp only [Qbit.req, reqCore, hp, hr0, hd0, hL, hr2]
        simp [countLogins_cons_dispatched, countLogins_append, login_countLogins,
          countDispatched_cons_dispatched, countDispatched_append, login_countDispatched,
          countLogins_nil, countDispatched_nil]
      · intro s2 st2 b2 hr2
        refine ⟨?_, ?_⟩
        · intro hd2
          simp only [Qbit.req, reqCore, hp, hr0, hd0, hL, hr2, hd2]
          simp [countLogins_cons_dispatched, countLogins_append, login_countLogins,
            countDispatched_cons_dispatched, countDispatched_append, login_countDispatched,
            countLogins_nil, countDispatched_nil]
        · intro hd2
          refine ⟨?_, ?_, ?_, ?_⟩
          · cases hL2 : (q.login ctx env ((q.login ctx env (n + 1)).next + 1)).res with
            | none =>
              simp only [Qbit.req, reqCore, hp, hr0, hd0, hL, hr2, hd2, hL2]
              simp [countLogins_cons_dispatched, countLogins_append, login_countLogins]
            | some e3 =>
              simp only [Qbit.req, reqCore, hp, hr0, hd0, hL, hr2, hd2, hL2]
              simp [countLogins_cons_dispatched, countLogins_append, login_countLogins]
          · cases hL2 : (q.login ctx env ((q.login ctx env (n + 1)).next + 1)).res with
            | none =>
              simp only [Qbit.req, reqCore, hp, hr0, hd0, hL, hr2, hd2, hL2]
              simp [countDispatched_cons_dispatched, countDispatched_append,
                login_countDispatched]
            | some e3 =>
              simp only [Qbit.req, reqCore, hp, hr0, hd0, hL, hr2, hd2, hL2]
              simp [countDispatched_cons_dispatched, countDispatched_append,
                login_countDispatched]
          · intro hL2
            simp only [Qbit.req, reqCore, hp, hr0, hd0, hL, hr2, hd2, hL2]
            simp
          · intro e3 hL2
            simp only [Qbit.req, reqCore, hp, hr0, hd0, hL, hr2, hd2, hL2]
            simp
    · intro r1 r2 h1 h2
      rw [req_dispatched_canon 1 q ctx _ uri (some vs) dec env n r1 h1,
        req_dispatched_canon 1 q ctx _ uri (some vs) dec env n r2 h2]

/-- C1 amended witness: the concrete double-decode-failure run makes
two login attempts, two identical dispatches, and ends in the decode
error wrapping the retry's status line. -/
theorem c1_amended_retry_policy_witness :
    countLogins (q0.req none Method.get (toGo "http://host/x") (some [])
      decList envRelogin 0 1).evs = 2 ∧
    countDispatched (q0.req none Method.get (toGo "http://host/x") (some [])
      decList envRelogin 0 1).evs = 2 ∧
    (q0.req none Method.get (toGo "http://host/x") (some []) decList envRelogin 0 1).res =
      Outcome.fail (QErr.decodeErr (toGo "200 OK")) :=
  let H := c1_amended_retry_policy q0 none Method.get (toGo "http://host/x") [] decList
    envRelogin 0 200 (toGo "200 OK") (toGo "<html>") rfl (by decide) (by decide)
  let H2 := (H.2.1 (by decide)).2 200 (toGo "200 OK") (toGo "<html>") (by decide)
  let H3 := H2.2 (by decide)
  ⟨H3.1, H3.2.1, H3.2.2.1 (by decide)⟩

/-- C8 counterexample: a dispatcher call under a context with no
deadline performs both of its login invocations with that same
unbounded context — the decode-failure re-login runs under no explicit
bounded timeout at all. -/
theorem c8_login_timeout_counterexample :
    (q0.req none Method.get (toGo "http://host/x") (some []) decList envRelogin 0 1).evs.countP
      (fun e => match e with | Event.loginStart none => true | _ => false) = 2 ∧
    countLogins (q0.req none Method.get (toGo "http://host/x") (some [])
      decList envRelogin 0 1).evs = 2 := by
  decide

theorem newConfig_login_evs (ctx : Ctx) (cfg : GoConfig) (jid : Nat) (env : Env) (n : Nat) :
    (newConfig ctx cfg true jid env n).evs =
      ((newConfig ctx cfg true jid env n).qbit.login (withTimeout ctx timeMinute) env n).evs :=
  rfl

/-- C8 amended: only the construction-time login (New) runs under an
explicit timeout, capped at one minute, layered over the caller's
context; every login invoked from the dispatcher's decode-failure path
runs under the caller-supplied context unchanged, with no additional
timeout. -/
theorem c8_amended_login_timeouts :
    (∀ (ctx : Ctx) (cfg : GoConfig) (jid : Nat) (env : Env) (n : Nat) (c : Ctx),
      Event.loginStart c ∈ (newConfig ctx cfg true jid env n).evs →
      c = withTimeout ctx timeMinute ∧ ∃ d, c = some d ∧ d ≤ timeMinute) ∧
    (∀ (q : Qbit) (ctx : Ctx) (method : Method) (uri : GoString) (val : Option Values)
        (dec : GoString → Bool) (env : Env) (n loop : Nat) (c : Ctx),
      Event.loginStart c ∈ (q.req ctx method uri val dec env n loop).evs → c = ctx) := by
  constructor
  · intro ctx cfg jid env n c h
    rw [newConfig_login_evs] at h
    have hc := login_loginStart_ctx h
    refine ⟨hc, ?_⟩
    cases ctx with
    | none => exact ⟨timeMinute, by simp [hc, withTimeout], le_refl timeMinute⟩
    | some t => exact ⟨min t timeMinute, by simp [hc, withTimeout], min_le_right t timeMinute⟩
  · intro q ctx method uri val dec env n loop c h
    exact req_loginStart_ctx loop q ctx method uri val dec env n c h

/-- C8 amended witness: the eager-login construction runs its login
under the one-minute deadline, and a concrete dispatcher re-login runs
under the caller's (deadline-free) context. -/
theorem c8_amended_login_timeouts_witness :
    ((some timeMinute : Ctx) = withTimeout none timeMinute ∧
      ∃ d, (some timeMinute : Ctx) = some d ∧ d ≤ timeMinute) ∧
    ((none : Ctx) = none) :=
  ⟨c8_amended_login_timeouts.1 none cfg0 0 envPlain 0 (some timeMinute) (by decide),
   c8_amended_login_timeouts.2 q0 none Method.get (toGo "http://host/x") (some []) decList
     envRelogin 0 1 none (by decide)⟩
